import Mathlib

/-!
Verification of the well/stimulation PDF-extraction pipeline
(`src/pdf_parser.py`, with the entity schema in `src/db_utils.py`).

The Python code is shallowly embedded: dictionaries with `Optional` values
become association lists over an explicit value type, the SQLAlchemy session
becomes an in-memory `Store` of well and stimulation rows, and exceptions in
the text-extraction layer become `Option`/`Except` values.  Python `set`
literals used for the field groups are embedded as lists in a fixed order;
every function below is insensitive to that order in the properties proved.
-/

namespace PdfParser

/-- A non-`None` Python value appearing in the parsed field dictionaries:
strings (from `clean_string`/`limit_length`), floats (from `safe_float`,
embedded as rationals), ints (from `safe_int` and the numeric default `0`),
and dates (from `safe_date`). -/
inductive Val where
  | str (s : String)
  | num (q : Rat)
  | int (n : Int)
  | date (y m d : Nat)
deriving DecidableEq, Repr

/-- A Python dict with `Optional` values: `none` embeds Python `None`. -/
abbrev Dict := List (String × Option Val)

instance {α : Type} [DecidableEq α] : DecidableEq (List (String × α)) :=
  inferInstance

/-- A payload dict after the `v not in (None, "")` comprehension: every
remaining value is a real `Val`. -/
abbrev Payload := List (String × Val)

/-- `d.get(k)`: the value at the first occurrence of key `k`, if any. -/
def alookup {α : Type} : List (String × α) → String → Option α
  | [], _ => none
  | (k', v) :: t, k => if k' = k then some v else alookup t k

/-- `d[k] = v`: replace the first binding of `k`, or append a new one.
This is Python dict assignment (insertion order preserved). -/
def dset {α : Type} : List (String × α) → String → α → List (String × α)
  | [], k, v => [(k, v)]
  | (k', w) :: t, k, v => if k' = k then (k, v) :: t else (k', w) :: dset t k v

/-- The keys of a dict are pairwise distinct — the invariant every real
Python dict satisfies. -/
def keysNodup {α : Type} (d : List (String × α)) : Prop :=
  (d.map Prod.fst).Nodup

instance {α : Type} (d : List (String × α)) : Decidable (keysNodup d) :=
  inferInstanceAs (Decidable (d.map Prod.fst).Nodup)

/-- `STRING_MISSING_DEFAULT` from the source. -/
def STRING_MISSING_DEFAULT : String := "N/A"

/-- `NUMERIC_MISSING_DEFAULT` from the source (the Python int `0`). -/
def NUMERIC_MISSING_DEFAULT : Int := 0

/-- The missing-value test used by `apply_missing_defaults`:
`updated.get(field) in (None, "")` (and `value is None or value == ""` in the
numeric loop, which is the same predicate): true for an absent key, a stored
`None`, or a stored empty string. -/
def isMissing : Option (Option Val) → Bool
  | none => true
  | some none => true
  | some (some (.str s)) => s == ""
  | some (some _) => false

/-- One defaulting loop of `apply_missing_defaults`: for each listed field
not in the exclude set whose current value is missing, store the default. -/
def passDefault (dflt : Val) : Dict → List String → List String → Dict
  | d, [], _ => d
  | d, f :: fs, ex =>
    let d' :=
      if f ∈ ex then d
      else if isMissing (alookup d f) then dset d f (some dflt)
      else d
    passDefault dflt d' fs ex

/-- `apply_missing_defaults(data, string_fields=…, numeric_fields=…, exclude=…)`:
copy the dict, default the missing string fields to `"N/A"`, then the missing
numeric fields to `0` (a Python int), skipping excluded fields. -/
def apply_missing_defaults (data : Dict) (stringFields numericFields exclude : List String) : Dict :=
  passDefault (.int NUMERIC_MISSING_DEFAULT)
    (passDefault (.str STRING_MISSING_DEFAULT) data stringFields exclude)
    numericFields exclude

/-- The dict comprehension `{k: v for k, v in d.items() if v not in (None, "")}`. -/
def filterPayload (d : Dict) : Payload :=
  d.filterMap fun kv =>
    match kv.2 with
    | some x => if x = .str "" then none else some (kv.1, x)
    | none => none

/-- Python truthiness of a `Val` (`not value` / `if value:`). -/
def valFalsy : Val → Bool
  | .str s => s == ""
  | .num q => q == 0
  | .int n => n == 0
  | .date _ _ _ => false

/-- The well string fields passed to `apply_missing_defaults` in `insert_data`. -/
def wellStringFields : List String :=
  ["operator", "well_name", "enseco_job", "job_type", "county_state", "shl", "datum"]

/-- The well numeric fields passed to `apply_missing_defaults` in `insert_data`. -/
def wellNumericFields : List String := ["latitude", "longitude"]

/-- The stimulation string fields passed to `apply_missing_defaults`. -/
def stimStringFields : List String :=
  ["stimulated_formation", "volume_units", "type_treatment", "acid", "details"]

/-- The stimulation numeric fields passed to `apply_missing_defaults`. -/
def stimNumericFields : List String :=
  ["top_ft", "bottom_ft", "stimulation_stages", "volume", "lbs_proppant",
   "max_treatment_pressure", "max_treatment_rate"]

/-- The well payload built at the top of `insert_data`: defaults applied with
`exclude={"api"}`, then missing values dropped. -/
def wellPayloadOf (wellData : Dict) : Payload :=
  filterPayload (apply_missing_defaults wellData wellStringFields wellNumericFields ["api"])

/-- The stimulation payload built in `insert_data`: defaults applied with
`exclude={"date_stimulated"}`, then missing values dropped. -/
def stimPayloadOf (stimData : Dict) : Payload :=
  filterPayload (apply_missing_defaults stimData stimStringFields stimNumericFields ["date_stimulated"])

/-- A persisted `Well` row (`db_utils.Well`): autoincrement id plus its
column values; a column absent from `fields` is SQL `NULL`. -/
structure WellRow where
  id : Nat
  fields : Payload
deriving DecidableEq, Repr

/-- A persisted `StimulationData` row (`db_utils.StimulationData`). -/
structure StimRow where
  id : Nat
  wellId : Nat
  fields : Payload
deriving DecidableEq, Repr

/-- The entity store reached through the SQLAlchemy session: the two tables
plus the autoincrement counters. -/
structure Store where
  wells : List WellRow
  stims : List StimRow
  nextWellId : Nat
  nextStimId : Nat
deriving DecidableEq, Repr

/-- A store with empty tables. -/
def emptyStore : Store := ⟨[], [], 0, 0⟩

/-- `for key, value in payload.items(): setattr(row, key, value)`. -/
def updateFields (fields : Payload) (payload : Payload) : Payload :=
  payload.foldl (fun fs kv => dset fs kv.1 kv.2) fields

/-- The well half of `insert_data`: look up the well whose `api` column equals
the payload identifier (`one_or_none`, embedded as first match); insert a new
row from the payload if absent, otherwise overwrite every payload field on the
existing row.  Returns the updated store and the owning well id. -/
def upsertWell (store : Store) (payload : Payload) (a : Val) : Store × Nat :=
  match store.wells.find? (fun w => alookup w.fields "api" == some a) with
  | none =>
    ({ store with
        wells := store.wells ++ [⟨store.nextWellId, payload⟩],
        nextWellId := store.nextWellId + 1 },
     store.nextWellId)
  | some w =>
    ({ store with
        wells := store.wells.map fun r =>
          if r.id = w.id then ⟨r.id, updateFields r.fields payload⟩ else r },
     w.id)

/-- The stimulation half of `insert_data`: skip when the payload is empty;
otherwise look up an existing row by `(well_id, date_stimulated)` only when
the payload carries a truthy date, updating it in place, and insert a new row
owned by the well otherwise. -/
def upsertStim (store : Store) (wid : Nat) (stimData : Dict) : Store :=
  let payload := stimPayloadOf stimData
  if payload.isEmpty then store
  else
    let existing :=
      match alookup payload "date_stimulated" with
      | some d =>
        if valFalsy d then none
        else store.stims.find? (fun (s : StimRow) =>
          s.wellId == wid && alookup s.fields "date_stimulated" == some d)
      | none => none
    match existing with
    | none =>
      { store with
          stims := store.stims ++ [⟨store.nextStimId, wid, payload⟩],
          nextStimId := store.nextStimId + 1 }
    | some srow =>
      { store with
          stims := store.stims.map fun (s : StimRow) =>
            if s.id = srow.id then ⟨s.id, s.wellId, updateFields s.fields payload⟩ else s }

/-- `insert_data(session, well_data, stim_data, source_path)`: abort with no
writes when the prepared well payload has no truthy identifier
(`if not well_payload.get("api")`), otherwise upsert the well and then the
stimulation record, committing both as one unit. -/
def insert_data (store : Store) (wellData stimData : Dict) : Store :=
  let wellPayload := wellPayloadOf wellData
  match alookup wellPayload "api" with
  | none => store
  | some a =>
    if valFalsy a then store
    else
      let sw := upsertWell store wellPayload a
      upsertStim sw.1 sw.2 stimData

/-! ### String cleaning (`clean_string`, `normalise_api_string`)

The regex substitutions of `clean_string` are embedded as character-list
scanners.  The scanners that skip a variable number of characters take a fuel
argument; the wrappers pass the input length, which every proof and
evaluation below stays under. -/

/-- The named entities of the stdlib `html.unescape` that occur in the well
documents.  Unrecognized references are left verbatim, as the library does. -/
def decodeEntity (name : String) : Option (List Char) :=
  if name = "amp" then some ['&']
  else if name = "lt" then some ['<']
  else if name = "gt" then some ['>']
  else if name = "quot" then some ['"']
  else if name = "apos" then some ['\'']
  else if name = "nbsp" then some ['\xA0']
  else
    match name.data with
    | '#' :: ds =>
      if ds ≠ [] && ds.all Char.isDigit then
        let n := ds.foldl (fun acc c => acc * 10 + c.toNat - '0'.toNat) 0
        if n.isValidChar then some [Char.ofNat n] else none
      else none
    | _ => none

/-- Try to read `name;` right after a `&`, returning the decoded characters
and the rest of the input. -/
def parseEntity (cs : List Char) : Option (List Char × List Char) :=
  let name := cs.takeWhile (fun c => c ≠ ';')
  match cs.drop name.length with
  | ';' :: rest =>
    match decodeEntity (String.mk name) with
    | some out => some (out, rest)
    | none => none
  | _ => none

/-- `html.unescape(value)` on the modelled entity subset. -/
def htmlUnescapeF : Nat → List Char → List Char
  | 0, cs => cs
  | _ + 1, [] => []
  | fuel + 1, c :: rest =>
    if c = '&' then
      match parseEntity rest with
      | some dr => dr.1 ++ htmlUnescapeF fuel dr.2
      | none => '&' :: htmlUnescapeF fuel rest
    else c :: htmlUnescapeF fuel rest

/-- `HTML_TAG_RE.sub(" ", ·)` with `HTML_TAG_RE = <[^>]+>`: each maximal
`<`…`>` group with a non-empty body becomes one space. -/
def stripTagsF : Nat → List Char → List Char
  | 0, cs => cs
  | _ + 1, [] => []
  | fuel + 1, c :: rest =>
    if c = '<' then
      let inner := rest.takeWhile (fun x => x ≠ '>')
      match rest.drop inner.length with
      | '>' :: rest' =>
        if inner.isEmpty then '<' :: stripTagsF fuel rest
        else ' ' :: stripTagsF fuel rest'
      | _ => '<' :: stripTagsF fuel rest
    else c :: stripTagsF fuel rest

/-- Characters of the `[\r\n\t]+` class. -/
def isCtrlWs (c : Char) : Bool := c = '\r' || c = '\n' || c = '\t'

/-- The ASCII fragment of the regex class `\s`.  Everywhere these scanners
run, earlier pipeline stages have already replaced non-ASCII characters with
spaces, so the fragment is exact for the composed functions. -/
def isPySpace (c : Char) : Bool :=
  c = ' ' || c = '\t' || c = '\n' || c = '\r' || c = '\x0b' || c = '\x0c'

/-- `re.sub(p+, " ", ·)`: each maximal run of `p`-characters becomes one
space. -/
def collapseRunsF (p : Char → Bool) : Nat → List Char → List Char
  | 0, cs => cs
  | _ + 1, [] => []
  | fuel + 1, c :: rest =>
    if p c then ' ' :: collapseRunsF p fuel (rest.dropWhile p)
    else c :: collapseRunsF p fuel rest

/-- `NON_PRINTABLE_RE.sub(" ", ·)` with class `[^\x09\x0A\x0D\x20-\x7E]`,
applied characterwise. -/
def scrubChar (c : Char) : Char :=
  if c = '\x09' || c = '\x0a' || c = '\x0d' || ('\x20' ≤ c && c ≤ '\x7e') then c else ' '

/-- `str.strip()`. -/
def pyStrip (cs : List Char) : List Char :=
  ((cs.dropWhile isPySpace).reverse.dropWhile isPySpace).reverse

/-- `clean_string(value)`: decode entities, blank out markup tags, collapse
`\r\n\t` runs, blank out non-printable characters, collapse whitespace runs,
strip; an empty result becomes `None`. -/
def clean_string (value : Option String) : Option String :=
  match value with
  | none => none
  | some s =>
    let cs := htmlUnescapeF s.data.length s.data
    let cs := stripTagsF cs.length cs
    let cs := collapseRunsF isCtrlWs cs.length cs
    let cs := cs.map scrubChar
    let cs := collapseRunsF isPySpace cs.length cs
    let cs := pyStrip cs
    if cs.isEmpty then none else some (String.mk cs)

/-- `normalise_api_string(value)`: clean, replace the unicode dashes
`–`/`—` with an ASCII hyphen, delete all whitespace, keep only
alphanumerics and hyphens; an empty result becomes `None`. -/
def normalise_api_string (value : Option String) : Option String :=
  match clean_string value with
  | none => none
  | some cleaned =>
    let cs := cleaned.data.map fun c =>
      if c = '–' || c = '—' then '-' else c
    let cs := cs.filter fun c => !isPySpace c
    let cs := cs.filter fun c =>
      ('0' ≤ c && c ≤ '9') || ('A' ≤ c && c ≤ 'Z') || ('a' ≤ c && c ≤ 'z') || c = '-'
    if cs.isEmpty then none else some (String.mk cs)

/-! ### Identifier recovery (`extract_api_fallback`)

The two regex scans are embedded operationally.  The separator-tolerant
pattern — 10 to 14 repetitions of a digit followed by optional separator
characters — is deterministic on every input (digits and separators are
disjoint classes), so its greedy leftmost `finditer` semantics is the plain
scan below; the contiguous pattern `\b\d{10,14}\b` matches exactly the
maximal digit runs of supported length flanked by non-word characters. -/

/-- The separator class of the tolerant pattern: whitespace, hyphen, slash
or backslash (`\s` on the ASCII characters the claims exercise). -/
def isSep (c : Char) : Bool :=
  isPySpace c || c = '-' || c = '/' || c = '\\'

/-- A regex word character (`\b` boundary test), on ASCII. -/
def isWordChar (c : Char) : Bool :=
  c.isAlphanum || c = '_'

/-- One attempt of the tolerant pattern at the head of the input: consume up
to `cap` repetitions of digit-then-separators, returning the number of digits
consumed, the consumed characters, and the rest. -/
def munch : Nat → List Char → Nat × List Char × List Char
  | 0, cs => (0, [], cs)
  | _ + 1, [] => (0, [], [])
  | cap + 1, c :: cs =>
    if c.isDigit then
      let seps := cs.takeWhile isSep
      let res := munch cap (cs.dropWhile isSep)
      (res.1 + 1, c :: seps ++ res.2.1, res.2.2)
    else (0, [], c :: cs)

/-- `finditer` of the tolerant pattern: at each position try a greedy match
of at least 10 repetitions; on success keep the digits of the match when
their count lies in `[10, 14]` (the explicit range check in the source) and
resume after the match, otherwise advance one character. -/
def scanTolerantF : Nat → List Char → List (List Char)
  | 0, _ => []
  | _ + 1, [] => []
  | fuel + 1, c :: cs =>
    let res := munch 14 (c :: cs)
    if 10 ≤ res.1 then
      let ds := res.2.1.filter Char.isDigit
      (if 10 ≤ ds.length && ds.length ≤ 14 then [ds] else []) ++ scanTolerantF fuel res.2.2
    else scanTolerantF fuel cs

/-- `re.findall(r"\b\d{10,14}\b")`: the maximal digit runs of length 10–14
whose neighbours (when present) are non-word characters, left to right.
`prev` is the character just before the current suffix. -/
def contiguousRunsF : Nat → List Char → Option Char → List (List Char)
  | 0, _, _ => []
  | _ + 1, [], _ => []
  | fuel + 1, c :: cs, prev =>
    if c.isDigit then
      let run := c :: cs.takeWhile Char.isDigit
      let rest := cs.dropWhile Char.isDigit
      let prevOk := match prev with | none => true | some p => !isWordChar p
      let nextOk := match rest.head? with | none => true | some n => !isWordChar n
      let keep := prevOk && nextOk && 10 ≤ run.length && run.length ≤ 14
      (if keep then [run] else []) ++ contiguousRunsF fuel rest (some '0')
    else contiguousRunsF fuel cs (some c)

/-- `format_api(digits)`: hyphenate at the fixed offsets for the supported
lengths 10 (2-3-5), 12 (2-3-5-2) and 14 (2-3-5-2-2). -/
def format_api (digits : List Char) : Option String :=
  if digits.length = 10 then
    some (String.mk (digits.take 2 ++ '-' :: (digits.drop 2).take 3 ++ '-' :: digits.drop 5))
  else if digits.length = 12 then
    some (String.mk (digits.take 2 ++ '-' :: (digits.drop 2).take 3 ++
      '-' :: (digits.drop 5).take 5 ++ '-' :: digits.drop 10))
  else if digits.length = 14 then
    some (String.mk (digits.take 2 ++ '-' :: (digits.drop 2).take 3 ++
      '-' :: (digits.drop 5).take 5 ++ '-' :: (digits.drop 10).take 2 ++ '-' :: digits.drop 12))
  else none

/-- `text.replace("–", "-").replace("—", "-")`. -/
def dashFix (c : Char) : Char :=
  if c = '–' || c = '—' then '-' else c

/-- The full candidate list of `extract_api_fallback`: tolerant-scan digits
first, then the contiguous runs, over the dash-normalised text. -/
def candidatesOf (text : String) : List (List Char) :=
  let norm := text.data.map dashFix
  scanTolerantF norm.length norm ++ contiguousRunsF norm.length norm none

/-- The loop of the candidate deduplication: drop values already in `seen`,
record new ones. -/
def dedupFirstGo (seen : List (List Char)) : List (List Char) → List (List Char)
  | [] => []
  | x :: xs => if x ∈ seen then dedupFirstGo seen xs else x :: dedupFirstGo (x :: seen) xs

/-- Deduplicate keeping the first occurrence of each value (the
`seen`/`ordered` loop in the source). -/
def dedupFirst : List (List Char) → List (List Char) :=
  dedupFirstGo []

/-- Stable insertion of a candidate into a list sorted by decreasing digit
count: skip the strictly longer entries, then sit before the rest. -/
def insertLenDesc (x : List Char) : List (List Char) → List (List Char)
  | [] => [x]
  | y :: ys => if x.length < y.length then y :: insertLenDesc x ys else x :: y :: ys

/-- `ordered.sort(key=len, reverse=True)`: the (unique) stable sort by
decreasing length. -/
def sortLenDesc : List (List Char) → List (List Char)
  | [] => []
  | x :: xs => insertLenDesc x (sortLenDesc xs)

/-- Return the first formatted candidate, if any (the final loop of
`extract_api_fallback`). -/
def firstFormatted : List (List Char) → Option String
  | [] => none
  | d :: ds =>
    match format_api d with
    | some s => some s
    | none => firstFormatted ds

/-- `extract_api_fallback(text)`: collect candidates, deduplicate in
first-seen order, reorder by descending digit count, return the first
candidate of supported length formatted; `None` when nothing qualifies. -/
def extract_api_fallback (text : String) : Option String :=
  let candidates := candidatesOf text
  if candidates.isEmpty then none
  else firstFormatted (sortLenDesc (dedupFirst candidates))

/-! ### Text extraction (`extract_text_from_pdf`, `process_pdf`)

The PyPDF2 / pdf2image / pytesseract calls are the fallible boundary of the
program; their outcomes are embedded as an environment of `Option`/`Except`
values, and the function becomes total — failure is signalled by the empty
string, exactly as the source's `except` clauses return `""`. -/

/-- The outcomes of the external toolchain for one document:
`readerPages = none` embeds `PdfReader` raising on open; a page entry of
`none` embeds `page.extract_text()` raising (the page is skipped); `convert`
embeds `convert_from_path`, whose error covers Poppler missing, a corrupt
page count, and any other conversion failure; each converted image carries
the outcome of `pytesseract.image_to_string` on it. -/
structure PdfEnv where
  readerPages : Option (List (Option String))
  convert : Except Unit (List (Except Unit String))
deriving Repr

/-- Python's `not s.strip()`: the string holds nothing but whitespace. -/
def pyBlank (s : String) : Bool :=
  s.data.all isPySpace

/-- The embedded-text aggregate: every page whose extraction succeeded with
non-blank text, joined by newlines. -/
def embeddedAggregate (env : PdfEnv) : String :=
  let chunks :=
    match env.readerPages with
    | none => []
    | some pages => pages.filterMap fun pg =>
        match pg with
        | none => none
        | some t => if pyBlank t then none else some t
  String.intercalate "\n" chunks

/-- The OCR loop: concatenate page texts, but return `""` as soon as one
page's recognition raises. -/
def ocrJoin : List (Except Unit String) → List String → String
  | [], acc => String.intercalate "\n" acc.reverse
  | .error _ :: _, _ => ""
  | .ok t :: rest, acc => ocrJoin rest (t :: acc)

/-- `extract_text_from_pdf(pdf_path)`: embedded text when any page yields a
non-blank chunk, else the OCR fallback; every toolchain failure ends in `""`. -/
def extract_text_from_pdf (env : PdfEnv) : String :=
  let aggregated := embeddedAggregate env
  if pyBlank aggregated then
    match env.convert with
    | .error _ => ""
    | .ok images => ocrJoin images []
  else aggregated

/-- `process_pdf(session, pdf_path)`: extract, return empty parses with no
store interaction when the text is blank, otherwise parse and upsert.  The
two parsers are opaque parameters here; the claim about this function holds
for every parser. -/
def process_pdf (parseWell parseStim : String → Dict) (store : Store) (env : PdfEnv) :
    Store × Dict × Dict :=
  let text := extract_text_from_pdf env
  if pyBlank text then (store, [], [])
  else
    let wellData := parseWell text
    let stimData := parseStim text
    (insert_data store wellData stimData, wellData, stimData)

/-! ### Concrete sample inputs

Sample parsed dictionaries of the shape `parse_well_info` and
`parse_stimulation_data` produce: every field key present, unobserved fields
holding `None`. -/

/-- A parsed well dict whose only observed field is the identifier. -/
def wdSample : Dict :=
  [("operator", none), ("well_name", none), ("api", some (.str "42-123-45678")),
   ("enseco_job", none), ("job_type", none), ("county_state", none), ("shl", none),
   ("latitude", none), ("longitude", none), ("datum", none)]

/-- A parsed stimulation dict with no field observed (a well-only document). -/
def sdAllMissing : Dict :=
  [("date_stimulated", none), ("stimulated_formation", none), ("top_ft", none),
   ("bottom_ft", none), ("stimulation_stages", none), ("volume", none),
   ("volume_units", none), ("type_treatment", none), ("acid", none),
   ("lbs_proppant", none), ("max_treatment_pressure", none),
   ("max_treatment_rate", none), ("details", none)]

/-- A parsed stimulation dict whose only observed field is the treatment date
(`"Date Stimulated: 01/02/2020"`, coerced by `safe_date`). -/
def sdWithDate : Dict := dset sdAllMissing "date_stimulated" (some (.date 2020 1 2))

/-! ### Lemmas about the upsert engine -/

theorem alookup_dset_self {α : Type} (d : List (String × α)) (k : String) (v : α) :
    alookup (dset d k v) k = some v := by
  induction d with
  | nil => simp [dset, alookup]
  | cons hd t ih =>
    obtain ⟨k', w⟩ := hd
    by_cases h : k' = k
    · simp [dset, h, alookup]
    · simp [dset, h, alookup, ih]

theorem alookup_dset_ne {α : Type} (d : List (String × α)) {k k' : String} (v : α)
    (h : k' ≠ k) : alookup (dset d k v) k' = alookup d k' := by
  induction d with
  | nil => simp [dset, alookup, Ne.symm h]
  | cons hd t ih =>
    obtain ⟨k'', w⟩ := hd
    by_cases h2 : k'' = k
    · subst h2
      simp [dset, alookup, Ne.symm h]
    · simp only [dset, if_neg h2]
      by_cases h3 : k'' = k'
      · simp [alookup, h3]
      · simp [alookup, h3, ih]

/-- Characterization of one defaulting loop: a listed, non-excluded, missing
field gets the default; every other field keeps its value. -/
theorem alookup_passDefault (v : Val) (fs : List String) (d : Dict) (ex : List String)
    (f : String) :
    alookup (passDefault v d fs ex) f =
      if f ∈ fs ∧ f ∉ ex ∧ isMissing (alookup d f) = true then some (some v)
      else alookup d f := by
  induction fs generalizing d with
  | nil => simp [passDefault]
  | cons g gs ih =>
    simp only [passDefault]
    rw [ih]
    by_cases hfg : f = g
    · subst hfg
      by_cases hex : f ∈ ex
      · simp [hex]
      · by_cases hmiss : isMissing (alookup d f) = true
        · simp [hex, hmiss, alookup_dset_self]
        · simp [hex, hmiss]
    · have hmem : (f ∈ g :: gs) = (f ∈ gs) := by
        simp [List.mem_cons, hfg]
      by_cases hex : g ∈ ex
      · simp [hex, hmem]
      · by_cases hmiss : isMissing (alookup d g) = true
        · simp [hex, hmiss, alookup_dset_ne _ _ hfg, hmem]
        · simp [hex, hmiss, hmem]

/-- A field outside both field lists, or excluded, is untouched by
`apply_missing_defaults`. -/
theorem alookup_applyDefaults_untouched (d : Dict) (sf nf ex : List String) (f : String)
    (hs : f ∉ sf ∨ f ∈ ex) (hn : f ∉ nf ∨ f ∈ ex) :
    alookup (apply_missing_defaults d sf nf ex) f = alookup d f := by
  unfold apply_missing_defaults
  rw [alookup_passDefault, alookup_passDefault]
  rcases hs with hs | hs <;> rcases hn with hn | hn <;> simp [hs, hn]

theorem alookup_filterPayload_of_some (d : Dict) (f : String) (v : Val)
    (hv : alookup d f = some (some v)) (hne : v ≠ .str "") :
    alookup (filterPayload d) f = some v := by
  induction d with
  | nil => simp [alookup] at hv
  | cons hd t ih =>
    obtain ⟨k, w⟩ := hd
    by_cases hk : k = f
    · subst hk
      simp only [alookup, if_pos rfl] at hv
      obtain rfl : w = some v := by simpa using hv
      simp [filterPayload, alookup, hne]
    · simp only [alookup, if_neg hk] at hv
      have := ih hv
      cases w with
      | none => simpa [filterPayload, alookup, hk] using this
      | some x =>
        by_cases hx : x = .str ""
        · simpa [filterPayload, alookup, hk, hx] using this
        · simpa [filterPayload, alookup, hk, hx] using this

theorem alookup_filterPayload_of_none (d : Dict) (f : String)
    (hv : alookup d f = none) : alookup (filterPayload d) f = none := by
  induction d with
  | nil => simp [filterPayload, alookup]
  | cons hd t ih =>
    obtain ⟨k, w⟩ := hd
    by_cases hk : k = f
    · simp [alookup, hk] at hv
    · simp only [alookup, if_neg hk] at hv
      have := ih hv
      cases w with
      | none => simpa [filterPayload, alookup, hk] using this
      | some x =>
        by_cases hx : x = .str ""
        · simpa [filterPayload, alookup, hk, hx] using this
        · simpa [filterPayload, alookup, hk, hx] using this

theorem alookup_eq_none_of_not_mem_keys {α : Type} (d : List (String × α)) (f : String)
    (h : f ∉ d.map Prod.fst) : alookup d f = none := by
  induction d with
  | nil => simp [alookup]
  | cons hd t ih =>
    obtain ⟨k, w⟩ := hd
    simp only [List.map_cons, List.mem_cons] at h
    push_neg at h
    simp [alookup, Ne.symm h.1, ih h.2]

/-- A missing field is dropped by the payload comprehension (dict keys are
unique, so the first binding is the only one). -/
theorem alookup_filterPayload_of_missing (d : Dict) (f : String) (hnd : keysNodup d)
    (hv : isMissing (alookup d f) = true) : alookup (filterPayload d) f = none := by
  induction d with
  | nil => simp [filterPayload, alookup]
  | cons hd t ih =>
    obtain ⟨k, w⟩ := hd
    have hnd' : keysNodup t := by
      simpa [keysNodup] using (List.nodup_cons.mp hnd).2
    by_cases hk : k = f
    · subst hk
      have hkt : k ∉ t.map Prod.fst := by
        simpa [keysNodup] using (List.nodup_cons.mp hnd).1
      have ht : alookup (filterPayload t) k = none :=
        alookup_filterPayload_of_none t k (alookup_eq_none_of_not_mem_keys t k hkt)
      simp only [alookup, if_pos rfl] at hv
      cases w with
      | none => simpa [filterPayload, alookup] using ht
      | some x =>
        cases x with
        | str s =>
          have hs : s = "" := by simpa [isMissing] using hv
          simpa [filterPayload, alookup, hs] using ht
        | num q => simp [isMissing] at hv
        | int n => simp [isMissing] at hv
        | date y m dd => simp [isMissing] at hv
    · simp only [alookup, if_neg hk] at hv
      have := ih hnd' hv
      cases w with
      | none => simpa [filterPayload, alookup, hk] using this
      | some x =>
        by_cases hx : x = .str ""
        · simpa [filterPayload, alookup, hk, hx] using this
        · simpa [filterPayload, alookup, hk, hx] using this

/-- The stimulation half of the upsert never touches the wells table or the
well id counter. -/
theorem upsertStim_preserves_wells (s : Store) (wid : Nat) (sd : Dict) :
    (upsertStim s wid sd).wells = s.wells ∧ (upsertStim s wid sd).nextWellId = s.nextWellId := by
  unfold upsertStim
  dsimp only
  split
  · exact ⟨rfl, rfl⟩
  · split <;> exact ⟨rfl, rfl⟩

/-- Inserting into an empty store creates well id 0 holding exactly the
payload. -/
theorem upsertWell_empty (p : Payload) (a : Val) :
    upsertWell emptyStore p a =
      ({ wells := [⟨0, p⟩], stims := [], nextWellId := 1, nextStimId := 0 }, 0) := by
  simp [upsertWell, emptyStore]

theorem mem_keys_dset {α : Type} (d : List (String × α)) (k : String) (v : α) (x : String)
    (h : x ∈ (dset d k v).map Prod.fst) : x ∈ d.map Prod.fst ∨ x = k := by
  induction d with
  | nil => simpa [dset] using h
  | cons hd t ih =>
    obtain ⟨k', w⟩ := hd
    by_cases hk : k' = k
    · have h2 : x = k ∨ x ∈ t.map Prod.fst := by simpa [dset, hk] using h
      rcases h2 with h2 | h2
      · exact Or.inr h2
      · exact Or.inl (by simp [h2])
    · have h2 : x = k' ∨ x ∈ (dset t k v).map Prod.fst := by simpa [dset, hk] using h
      rcases h2 with h2 | h2
      · exact Or.inl (by simp [h2])
      · rcases ih h2 with h3 | h3
        · exact Or.inl (by simp [h3])
        · exact Or.inr h3

theorem keysNodup_dset {α : Type} (d : List (String × α)) (k : String) (v : α)
    (h : keysNodup d) : keysNodup (dset d k v) := by
  induction d with
  | nil => simp [dset, keysNodup]
  | cons hd t ih =>
    obtain ⟨k', w⟩ := hd
    rw [keysNodup, List.map_cons, List.nodup_cons] at h
    by_cases hk : k' = k
    · subst hk
      simpa [dset, keysNodup] using h
    · have ht := ih h.2
      rw [keysNodup] at ht ⊢
      simp only [dset, if_neg hk, List.map_cons, List.nodup_cons]
      refine ⟨fun hmem => ?_, ht⟩
      rcases mem_keys_dset t k v k' hmem with h2 | h2
      · exact h.1 h2
      · exact hk h2

theorem keysNodup_passDefault (v : Val) (fs : List String) (d : Dict) (ex : List String)
    (h : keysNodup d) : keysNodup (passDefault v d fs ex) := by
  induction fs generalizing d with
  | nil => simpa [passDefault] using h
  | cons g gs ih =>
    simp only [passDefault]
    apply ih
    by_cases hex : g ∈ ex
    · simpa [hex] using h
    · by_cases hm : isMissing (alookup d g) = true
      · simpa [hex, hm] using keysNodup_dset d g _ h
      · simpa [hex, hm] using h

theorem keys_filterPayload_sublist (d : Dict) :
    ((filterPayload d).map Prod.fst).Sublist (d.map Prod.fst) := by
  induction d with
  | nil => simp [filterPayload]
  | cons hd t ih =>
    obtain ⟨k, w⟩ := hd
    cases w with
    | none => simpa [filterPayload] using ih.cons k
    | some x =>
      by_cases hx : x = .str ""
      · simpa [filterPayload, hx] using ih.cons k
      · simpa [filterPayload, hx] using ih.cons₂ k

theorem keysNodup_filterPayload (d : Dict) (h : keysNodup d) : keysNodup (filterPayload d) :=
  (keys_filterPayload_sublist d).nodup h

theorem keysNodup_wellPayloadOf (wd : Dict) (h : keysNodup wd) : keysNodup (wellPayloadOf wd) :=
  keysNodup_filterPayload _ (keysNodup_passDefault _ _ _ _ (keysNodup_passDefault _ _ _ _ h))

/-- Setting the fields of a payload with no `f` binding leaves column `f`
alone. -/
theorem alookup_updateFields_of_none (fs p : Payload) (f : String)
    (h : alookup p f = none) : alookup (updateFields fs p) f = alookup fs f := by
  induction p generalizing fs with
  | nil => simp [updateFields]
  | cons hd t ih =>
    obtain ⟨k, w⟩ := hd
    simp only [alookup] at h
    by_cases hk : k = f
    · simp [hk] at h
    · rw [if_neg hk] at h
      show alookup (updateFields (dset fs k w) t) f = alookup fs f
      rw [ih (dset fs k w) h]
      exact alookup_dset_ne fs w (Ne.symm hk)

/-- Setting the fields of a payload binding `f` to `v` stores `v` in column
`f` (payload keys are unique). -/
theorem alookup_updateFields_of_some (fs p : Payload) (f : String) (v : Val)
    (hnd : keysNodup p) (h : alookup p f = some v) :
    alookup (updateFields fs p) f = some v := by
  induction p generalizing fs with
  | nil => simp [alookup] at h
  | cons hd t ih =>
    obtain ⟨k, w⟩ := hd
    rw [keysNodup, List.map_cons, List.nodup_cons] at hnd
    simp only [alookup] at h
    by_cases hk : k = f
    · rw [if_pos hk] at h
      have hwv : w = v := by simpa using h
      have hkt : alookup t f = none :=
        alookup_eq_none_of_not_mem_keys t f (by simpa [hk] using hnd.1)
      show alookup (updateFields (dset fs k w) t) f = some v
      rw [alookup_updateFields_of_none (dset fs k w) t f hkt, hk, alookup_dset_self]
      exact congrArg some hwv
    · rw [if_neg hk] at h
      show alookup (updateFields (dset fs k w) t) f = some v
      exact ih (dset fs k w) hnd.2 h

/-- The well half of the upsert never touches the stimulation table or its
counter. -/
theorem upsertWell_preserves_stims (s : Store) (p : Payload) (a : Val) :
    (upsertWell s p a).1.stims = s.stims ∧ (upsertWell s p a).1.nextStimId = s.nextStimId := by
  unfold upsertWell
  split <;> exact ⟨rfl, rfl⟩

/-- A dict binding `f` is a non-empty list. -/
theorem isEmpty_false_of_alookup_some {α : Type} (d : List (String × α)) (f : String)
    (v : α) (h : alookup d f = some v) : d.isEmpty = false := by
  cases d with
  | nil => simp [alookup] at h
  | cons hd t => rfl

/-- `isMissing` is false exactly on a present, non-`None`, non-empty value. -/
theorem not_missing_elim (o : Option (Option Val)) (h : isMissing o = false) :
    ∃ v, o = some (some v) ∧ v ≠ .str "" := by
  rcases o with _ | o2
  · simp [isMissing] at h
  · rcases o2 with _ | v
    · simp [isMissing] at h
    · rcases v with s | q | n | ⟨y, mo, dd⟩
      · have hs : s ≠ "" := by simpa [isMissing] using h
        exact ⟨.str s, rfl, by simp [hs]⟩
      · exact ⟨.num q, rfl, by simp⟩
      · exact ⟨.int n, rfl, by simp⟩
      · exact ⟨.date y mo dd, rfl, by simp⟩

/-- After default substitution and dropping, the stimulation payload always
binds `stimulated_formation` (to `"N/A"` or to the observed value), so it is
never empty. -/
theorem stimPayloadOf_ne_empty (sd : Dict) : (stimPayloadOf sd).isEmpty = false := by
  have hchar :
      alookup (apply_missing_defaults sd stimStringFields stimNumericFields
        ["date_stimulated"]) "stimulated_formation" =
        if isMissing (alookup sd "stimulated_formation") = true
        then some (some (.str STRING_MISSING_DEFAULT))
        else alookup sd "stimulated_formation" := by
    unfold apply_missing_defaults
    rw [alookup_passDefault, alookup_passDefault]
    by_cases hm : isMissing (alookup sd "stimulated_formation") = true
    · simp [hm, stimStringFields, stimNumericFields, isMissing, STRING_MISSING_DEFAULT]
    · simp [hm, stimStringFields, stimNumericFields]
  by_cases hm : isMissing (alookup sd "stimulated_formation") = true
  · rw [if_pos hm] at hchar
    exact isEmpty_false_of_alookup_some _ _ _
      (alookup_filterPayload_of_some _ _ _ hchar (by simp [STRING_MISSING_DEFAULT]))
  · rw [if_neg hm] at hchar
    obtain ⟨v, hv, hne⟩ := not_missing_elim _ (by simpa using hm)
    rw [hv] at hchar
    exact isEmpty_false_of_alookup_some _ _ _
      (alookup_filterPayload_of_some _ _ _ hchar hne)

/-- The treatment date passes through preparation untouched. -/
theorem stimPayload_date_of_some (sd : Dict) (v : Val)
    (h : alookup sd "date_stimulated" = some (some v)) (hne : v ≠ .str "") :
    alookup (stimPayloadOf sd) "date_stimulated" = some v := by
  apply alookup_filterPayload_of_some _ _ _ _ hne
  rw [alookup_applyDefaults_untouched _ _ _ _ _ (Or.inr (by decide)) (Or.inr (by decide))]
  exact h

/-- A missing treatment date is dropped from the prepared payload. -/
theorem stimPayload_date_of_missing (sd : Dict) (hnd : keysNodup sd)
    (h : isMissing (alookup sd "date_stimulated") = true) :
    alookup (stimPayloadOf sd) "date_stimulated" = none := by
  apply alookup_filterPayload_of_missing
  · exact keysNodup_passDefault _ _ _ _ (keysNodup_passDefault _ _ _ _ hnd)
  · rw [alookup_applyDefaults_untouched _ _ _ _ _ (Or.inr (by decide)) (Or.inr (by decide))]
    exact h

/-- With no date in the payload, `insert_data`'s stimulation half always
appends a fresh row owned by `wid`. -/
theorem upsertStim_no_date (s : Store) (wid : Nat) (sd : Dict)
    (hdate : alookup (stimPayloadOf sd) "date_stimulated" = none) :
    upsertStim s wid sd =
      { s with stims := s.stims ++ [⟨s.nextStimId, wid, stimPayloadOf sd⟩],
               nextStimId := s.nextStimId + 1 } := by
  have hne := stimPayloadOf_ne_empty sd
  unfold upsertStim
  obtain ⟨pl, hpl⟩ : ∃ pl, stimPayloadOf sd = pl := ⟨_, rfl⟩
  rw [hpl] at hdate hne ⊢
  simp only []
  rw [hne]
  simp only [Bool.false_eq_true, if_false]
  rw [hdate]

/-- With a truthy payload date and no matching `(well, date)` row, the
stimulation half appends a fresh row. -/
theorem upsertStim_date_not_found (s : Store) (wid : Nat) (sd : Dict) (dv : Val)
    (hdate : alookup (stimPayloadOf sd) "date_stimulated" = some dv)
    (hdv : valFalsy dv = false)
    (hfind : s.stims.find? (fun r =>
      r.wellId == wid && alookup r.fields "date_stimulated" == some dv) = none) :
    upsertStim s wid sd =
      { s with stims := s.stims ++ [⟨s.nextStimId, wid, stimPayloadOf sd⟩],
               nextStimId := s.nextStimId + 1 } := by
  have hne := stimPayloadOf_ne_empty sd
  unfold upsertStim
  obtain ⟨pl, hpl⟩ : ∃ pl, stimPayloadOf sd = pl := ⟨_, rfl⟩
  rw [hpl] at hdate hne ⊢
  simp only []
  rw [hne]
  simp only [Bool.false_eq_true, if_false]
  rw [hdate]
  simp only [hdv, Bool.false_eq_true, if_false]
  rw [hfind]

/-- With a truthy payload date and a matching `(well, date)` row, the
stimulation half overwrites that row in place. -/
theorem upsertStim_date_found (s : Store) (wid : Nat) (sd : Dict) (dv : Val) (srow : StimRow)
    (hdate : alookup (stimPayloadOf sd) "date_stimulated" = some dv)
    (hdv : valFalsy dv = false)
    (hfind : s.stims.find? (fun r =>
      r.wellId == wid && alookup r.fields "date_stimulated" == some dv) = some srow) :
    upsertStim s wid sd =
      { s with stims := s.stims.map fun r =>
          if r.id = srow.id then ⟨r.id, r.wellId, updateFields r.fields (stimPayloadOf sd)⟩
          else r } := by
  have hne := stimPayloadOf_ne_empty sd
  unfold upsertStim
  obtain ⟨pl, hpl⟩ : ∃ pl, stimPayloadOf sd = pl := ⟨_, rfl⟩
  rw [hpl] at hdate hne ⊢
  simp only []
  rw [hne]
  simp only [Bool.false_eq_true, if_false]
  rw [hdate]
  simp only [hdv, Bool.false_eq_true, if_false]
  rw [hfind]

/-- Unfolding `insert_data` when the payload identifier is present and
truthy. -/
theorem insert_data_unfold (S : Store) (wd sd : Dict) (a : Val)
    (ha : alookup (wellPayloadOf wd) "api" = some a) (haf : valFalsy a = false) :
    insert_data S wd sd =
      upsertStim (upsertWell S (wellPayloadOf wd) a).1 (upsertWell S (wellPayloadOf wd) a).2 sd := by
  unfold insert_data
  simp only []
  rw [ha]
  simp only [haf, Bool.false_eq_true, if_false]

/-- When a well with the payload identifier exists, the upsert overwrites the
payload fields on that row. -/
theorem upsertWell_found (s : Store) (p : Payload) (a : Val) (w : WellRow)
    (hfind : s.wells.find? (fun r => alookup r.fields "api" == some a) = some w) :
    upsertWell s p a =
      ({ s with wells := s.wells.map fun r =>
          if r.id = w.id then ⟨r.id, updateFields r.fields p⟩ else r }, w.id) := by
  unfold upsertWell
  rw [hfind]

/-- A well string field that is missing from the parsed dict ends up in the
prepared payload bound to the sentinel `"N/A"`. -/
theorem wellPayload_default_str (wd : Dict) (f : String) (hf : f ∈ wellStringFields)
    (hmiss : isMissing (alookup wd f) = true) :
    alookup (wellPayloadOf wd) f = some (.str STRING_MISSING_DEFAULT) := by
  have hdisj : ∀ g ∈ wellStringFields, g ∉ (["api"] : List String) ∧ g ∉ wellNumericFields := by
    decide
  apply alookup_filterPayload_of_some
  · unfold apply_missing_defaults
    rw [alookup_passDefault, if_neg fun hc => (hdisj f hf).2 hc.1]
    rw [alookup_passDefault, if_pos ⟨hf, (hdisj f hf).1, hmiss⟩]
  · simp [STRING_MISSING_DEFAULT]

/-- A well numeric field that is missing from the parsed dict ends up in the
prepared payload bound to the numeric default `0`. -/
theorem wellPayload_default_num (wd : Dict) (f : String) (hf : f ∈ wellNumericFields)
    (hmiss : isMissing (alookup wd f) = true) :
    alookup (wellPayloadOf wd) f = some (.int NUMERIC_MISSING_DEFAULT) := by
  have hdisj : ∀ g ∈ wellNumericFields, g ∉ (["api"] : List String) ∧ g ∉ wellStringFields := by
    decide
  have hstr : alookup (passDefault (.str STRING_MISSING_DEFAULT) wd wellStringFields ["api"]) f
      = alookup wd f := by
    rw [alookup_passDefault, if_neg fun hc => (hdisj f hf).2 hc.1]
  apply alookup_filterPayload_of_some
  · unfold apply_missing_defaults
    rw [alookup_passDefault, if_pos ⟨hf, (hdisj f hf).1, by rw [hstr]; exact hmiss⟩]
  · simp

/-! ### Claim theorems -/

/-- C7: default substitution never writes a sentinel into the well
identifier or the stimulation date: with the exclude sets used by
`insert_data`, `apply_missing_defaults` leaves both identity fields exactly
as it found them (in particular, absent fields stay absent). -/
theorem defaults_preserve_identity_fields (d : Dict) :
    alookup (apply_missing_defaults d wellStringFields wellNumericFields ["api"]) "api"
        = alookup d "api" ∧
      alookup (apply_missing_defaults d stimStringFields stimNumericFields
        ["date_stimulated"]) "date_stimulated" = alookup d "date_stimulated" :=
  ⟨alookup_applyDefaults_untouched _ _ _ _ _ (Or.inr (by decide)) (Or.inr (by decide)),
   alookup_applyDefaults_untouched _ _ _ _ _ (Or.inr (by decide)) (Or.inr (by decide))⟩

/-- C1: when the prepared well payload carries no identifier, `insert_data`
returns the store untouched — no well row, no stimulation row. -/
theorem insert_data_no_identifier_aborts (store : Store) (wd sd : Dict)
    (h : alookup (wellPayloadOf wd) "api" = none) :
    insert_data store wd sd = store := by
  unfold insert_data
  simp only []
  rw [h]

/-- Witness for C1 at a concrete document with no identifier field. -/
theorem insert_data_no_identifier_aborts_witness :
    insert_data emptyStore [("operator", some (.str "Acme"))] sdAllMissing = emptyStore :=
  insert_data_no_identifier_aborts _ _ _ (by decide)

/-- C2: processing the same parsed document twice against an empty store
leaves exactly one well row — the second pass finds the row by identifier
equality and updates it instead of inserting a duplicate. -/
theorem insert_data_twice_one_well (wd sd : Dict) (a : Val)
    (ha : alookup (wellPayloadOf wd) "api" = some a) (haf : valFalsy a = false) :
    (insert_data (insert_data emptyStore wd sd) wd sd).wells.length = 1 := by
  have e1 : insert_data emptyStore wd sd =
      upsertStim ⟨[⟨0, wellPayloadOf wd⟩], [], 1, 0⟩ 0 sd := by
    unfold insert_data
    simp only []
    rw [ha]
    simp only [haf, Bool.false_eq_true, if_false]
    rw [upsertWell_empty]
  have e2 : (insert_data emptyStore wd sd).wells = [⟨0, wellPayloadOf wd⟩] := by
    rw [e1, (upsertStim_preserves_wells _ _ _).1]
  have hfind : (insert_data emptyStore wd sd).wells.find?
      (fun w => alookup w.fields "api" == some a) = some ⟨0, wellPayloadOf wd⟩ := by
    rw [e2]
    simp [List.find?, ha]
  set S : Store := insert_data emptyStore wd sd with hS
  unfold insert_data
  simp only []
  rw [ha]
  simp only [haf, Bool.false_eq_true, if_false]
  rw [(upsertStim_preserves_wells _ _ _).1]
  simp only [upsertWell, hfind]
  simp [e2]

/-- Witness for C2: the sample identifier-only document processed twice. -/
theorem insert_data_twice_one_well_witness :
    (insert_data (insert_data emptyStore wdSample sdAllMissing) wdSample
      sdAllMissing).wells.length = 1 :=
  insert_data_twice_one_well _ _ (.str "42-123-45678") (by decide) (by decide)

/-- C4 counterexample: the claim says a never-observed non-identity field is
dropped from the payload and left untouched on the existing row.  On an
existing row whose `operator` is `"Acme"`, processing a document that never
observed `operator` overwrites the column with the sentinel `"N/A"` — not
`"Acme"` — because default substitution fills the field before the drop. -/
theorem unobserved_field_not_left_untouched_cex :
    ((insert_data
        ⟨[⟨0, [("api", .str "42-123-45678"), ("operator", .str "Acme")]⟩], [], 1, 0⟩
        wdSample sdAllMissing).wells.map fun r => alookup r.fields "operator")
        = [some (.str "N/A")] ∧
      (some (Val.str "N/A") ≠ some (Val.str "Acme")) :=
  ⟨by decide, by decide⟩

set_option maxHeartbeats 1000000 in
/-- C4 amended: a non-identity well field never observed in the document is
not dropped — default substitution fills it (`"N/A"` for string fields, `0`
for numeric fields) and the present-field overwrite resets the existing
row's column to that sentinel. -/
theorem unobserved_field_overwritten_with_default (wd sd : Dict) (st : Store) (w : WellRow)
    (f : String) (a : Val)
    (hw : st.wells = [w]) (hnd : keysNodup wd)
    (ha : alookup (wellPayloadOf wd) "api" = some a) (haf : valFalsy a = false)
    (hrow : alookup w.fields "api" = some a)
    (hmiss : isMissing (alookup wd f) = true) :
    ∃ r : WellRow, (insert_data st wd sd).wells = [r] ∧ r.id = w.id ∧
      (f ∈ wellStringFields → alookup r.fields f = some (.str STRING_MISSING_DEFAULT)) ∧
      (f ∈ wellNumericFields → alookup r.fields f = some (.int NUMERIC_MISSING_DEFAULT)) := by
  have hfind : st.wells.find? (fun r => alookup r.fields "api" == some a) = some w := by
    rw [hw]
    simp [List.find?, hrow]
  have h1 : (insert_data st wd sd).wells = [⟨w.id, updateFields w.fields (wellPayloadOf wd)⟩] := by
    have e := insert_data_unfold st wd sd a ha haf
    obtain ⟨p, hp⟩ : ∃ p, wellPayloadOf wd = p := ⟨_, rfl⟩
    rw [hp] at e ⊢
    rw [e, (upsertStim_preserves_wells _ _ _).1, upsertWell_found st p a w hfind]
    simp [hw]
  exact ⟨⟨w.id, updateFields w.fields (wellPayloadOf wd)⟩, h1, rfl,
    fun hf => alookup_updateFields_of_some _ _ _ _ (keysNodup_wellPayloadOf wd hnd)
      (wellPayload_default_str wd f hf hmiss),
    fun hf => alookup_updateFields_of_some _ _ _ _ (keysNodup_wellPayloadOf wd hnd)
      (wellPayload_default_num wd f hf hmiss)⟩

/-- Witness for the amended C4: the sample store row loses its observed
`operator` value to the sentinel. -/
theorem unobserved_field_overwritten_with_default_witness :
    ∃ r : WellRow,
      (insert_data
          ⟨[⟨0, [("api", .str "42-123-45678"), ("operator", .str "Acme")]⟩], [], 1, 0⟩
          wdSample sdAllMissing).wells = [r] ∧
        r.id = 0 ∧
        ("operator" ∈ wellStringFields →
          alookup r.fields "operator" = some (.str STRING_MISSING_DEFAULT)) ∧
        ("operator" ∈ wellNumericFields →
          alookup r.fields "operator" = some (.int NUMERIC_MISSING_DEFAULT)) :=
  unobserved_field_overwritten_with_default wdSample sdAllMissing _
    ⟨0, [("api", .str "42-123-45678"), ("operator", .str "Acme")]⟩ "operator"
    (.str "42-123-45678") rfl (by decide) (by decide) (by decide) (by decide) (by decide)

/-- C5 counterexample: the claim says a document with no observed stimulation
field yields an empty stimulation payload and no stimulation row.  In fact
default substitution fills every non-date stimulation field, the payload is
non-empty, and a well-only document writes one stimulation row. -/
theorem well_only_document_stim_payload_cex :
    stimPayloadOf sdAllMissing ≠ [] ∧
      (insert_data emptyStore wdSample sdAllMissing).stims.length = 1 ∧
      ¬ (insert_data emptyStore wdSample sdAllMissing).stims.length = 0 :=
  ⟨by decide, by decide, by decide⟩

/-- C5 amended: for a document with no observed stimulation field, the
prepared stimulation payload is non-empty — every non-date field holds its
sentinel default — and stimulation processing is not skipped: a well-only
document writes a well row and exactly one stimulation row, dateless and
filled with defaults. -/
theorem well_only_document_writes_default_stim_row (wd : Dict) (a : Val)
    (ha : alookup (wellPayloadOf wd) "api" = some a) (haf : valFalsy a = false) :
    (insert_data emptyStore wd sdAllMissing).stims = [⟨0, 0, stimPayloadOf sdAllMissing⟩] ∧
      alookup (stimPayloadOf sdAllMissing) "date_stimulated" = none ∧
      (∀ f ∈ stimStringFields,
        alookup (stimPayloadOf sdAllMissing) f = some (.str STRING_MISSING_DEFAULT)) ∧
      (∀ f ∈ stimNumericFields,
        alookup (stimPayloadOf sdAllMissing) f = some (.int NUMERIC_MISSING_DEFAULT)) := by
  refine ⟨?_, by decide, by decide, by decide⟩
  rw [insert_data_unfold emptyStore wd sdAllMissing a ha haf, upsertWell_empty,
    upsertStim_no_date _ _ _ (by decide)]
  rfl

/-- Witness for the amended C5 at the sample identifier-only document. -/
theorem well_only_document_writes_default_stim_row_witness :
    (insert_data emptyStore wdSample sdAllMissing).stims
        = [⟨0, 0, stimPayloadOf sdAllMissing⟩] ∧
      alookup (stimPayloadOf sdAllMissing) "date_stimulated" = none ∧
      (∀ f ∈ stimStringFields,
        alookup (stimPayloadOf sdAllMissing) f = some (.str STRING_MISSING_DEFAULT)) ∧
      (∀ f ∈ stimNumericFields,
        alookup (stimPayloadOf sdAllMissing) f = some (.int NUMERIC_MISSING_DEFAULT)) :=
  well_only_document_writes_default_stim_row wdSample (.str "42-123-45678")
    (by decide) (by decide)

set_option maxHeartbeats 2000000 in
/-- C6: stimulation deduplication is keyed by `(owning well, treatment
date)`.  Two passes over a document carrying a parsed stimulation date for
the same well identifier leave exactly one stimulation row (the second pass
overwrites in place); two passes over a document with no stimulation date
leave two rows (a dateless payload is always appended). -/
theorem stim_dedup_keyed_by_well_and_date :
    (∀ (wd sd : Dict) (a : Val) (y mo dd : Nat),
        alookup (wellPayloadOf wd) "api" = some a → valFalsy a = false →
        alookup sd "date_stimulated" = some (some (.date y mo dd)) →
        (insert_data (insert_data emptyStore wd sd) wd sd).stims.length = 1) ∧
      (∀ (wd sd : Dict) (a : Val),
        alookup (wellPayloadOf wd) "api" = some a → valFalsy a = false →
        keysNodup sd → isMissing (alookup sd "date_stimulated") = true →
        (insert_data (insert_data emptyStore wd sd) wd sd).stims.length = 2) := by
  constructor
  · intro wd sd a y mo dd ha haf hdate
    have hdv : alookup (stimPayloadOf sd) "date_stimulated" = some (.date y mo dd) :=
      stimPayload_date_of_some sd _ hdate (by simp)
    have e0 : insert_data emptyStore wd sd =
        upsertStim ⟨[⟨0, wellPayloadOf wd⟩], [], 1, 0⟩ 0 sd := by
      rw [insert_data_unfold emptyStore wd sd a ha haf, upsertWell_empty]
    have e1 : insert_data emptyStore wd sd =
        (⟨[⟨0, wellPayloadOf wd⟩], [⟨0, 0, stimPayloadOf sd⟩], 1, 1⟩ : Store) := by
      rw [e0, upsertStim_date_not_found ⟨[⟨0, wellPayloadOf wd⟩], [], 1, 0⟩ 0 sd
        (.date y mo dd) hdv rfl rfl]
      rfl
    have hfindw : (⟨[⟨0, wellPayloadOf wd⟩], [⟨0, 0, stimPayloadOf sd⟩], 1, 1⟩ : Store).wells.find?
        (fun r => alookup r.fields "api" == some a) = some ⟨0, wellPayloadOf wd⟩ := by
      simp [List.find?, ha]
    have e2 : insert_data (insert_data emptyStore wd sd) wd sd =
        upsertStim ⟨[⟨0, updateFields (wellPayloadOf wd) (wellPayloadOf wd)⟩],
          [⟨0, 0, stimPayloadOf sd⟩], 1, 1⟩ 0 sd := by
      rw [insert_data_unfold _ wd sd a ha haf, e1,
        upsertWell_found _ _ _ ⟨0, wellPayloadOf wd⟩ hfindw]
      rfl
    have hfinds : (⟨[⟨0, updateFields (wellPayloadOf wd) (wellPayloadOf wd)⟩],
        [⟨0, 0, stimPayloadOf sd⟩], 1, 1⟩ : Store).stims.find?
        (fun r => r.wellId == 0 && alookup r.fields "date_stimulated"
          == some (.date y mo dd)) = some ⟨0, 0, stimPayloadOf sd⟩ := by
      simp [List.find?, hdv]
    rw [e2, upsertStim_date_found _ _ _ _ ⟨0, 0, stimPayloadOf sd⟩ hdv rfl hfinds]
    rfl
  · intro wd sd a ha haf hnd hmiss
    have hdnone : alookup (stimPayloadOf sd) "date_stimulated" = none :=
      stimPayload_date_of_missing sd hnd hmiss
    have e0 : insert_data emptyStore wd sd =
        upsertStim ⟨[⟨0, wellPayloadOf wd⟩], [], 1, 0⟩ 0 sd := by
      rw [insert_data_unfold emptyStore wd sd a ha haf, upsertWell_empty]
    have e1 : insert_data emptyStore wd sd =
        (⟨[⟨0, wellPayloadOf wd⟩], [⟨0, 0, stimPayloadOf sd⟩], 1, 1⟩ : Store) := by
      rw [e0, upsertStim_no_date ⟨[⟨0, wellPayloadOf wd⟩], [], 1, 0⟩ 0 sd hdnone]
      rfl
    have hfindw : (⟨[⟨0, wellPayloadOf wd⟩], [⟨0, 0, stimPayloadOf sd⟩], 1, 1⟩ : Store).wells.find?
        (fun r => alookup r.fields "api" == some a) = some ⟨0, wellPayloadOf wd⟩ := by
      simp [List.find?, ha]
    have e2 : insert_data (insert_data emptyStore wd sd) wd sd =
        upsertStim ⟨[⟨0, updateFields (wellPayloadOf wd) (wellPayloadOf wd)⟩],
          [⟨0, 0, stimPayloadOf sd⟩], 1, 1⟩ 0 sd := by
      rw [insert_data_unfold _ wd sd a ha haf, e1,
        upsertWell_found _ _ _ ⟨0, wellPayloadOf wd⟩ hfindw]
      rfl
    rw [e2, upsertStim_no_date _ _ _ hdnone]
    rfl

/-- Witness for C6: the sample document with `Date Stimulated: 01/02/2020`
twice gives one stimulation row; the dateless sample document twice gives
two. -/
theorem stim_dedup_keyed_by_well_and_date_witness :
    (insert_data (insert_data emptyStore wdSample sdWithDate) wdSample
        sdWithDate).stims.length = 1 ∧
      (insert_data (insert_data emptyStore wdSample sdAllMissing) wdSample
        sdAllMissing).stims.length = 2 :=
  ⟨stim_dedup_keyed_by_well_and_date.1 wdSample sdWithDate (.str "42-123-45678") 2020 1 2
      (by decide) (by decide) (by decide),
    stim_dedup_keyed_by_well_and_date.2 wdSample sdAllMissing (.str "42-123-45678")
      (by decide) (by decide) (by decide) (by decide)⟩

/-- C3 counterexample: the claim says `"42 123 45678"`, `"42-123-45678"` and
`"42—123—45678"` all canonicalize to `"42-123-45678"`.  The space-separated
input in fact canonicalizes to `"4212345678"`: whitespace is removed, not
replaced by hyphens. -/
theorem canonicalization_separator_insensitive_cex :
    normalise_api_string (some "42 123 45678") = some "4212345678" ∧
      some "4212345678" ≠ some "42-123-45678" :=
  ⟨by decide, by decide⟩

/-- C3 amended: only the ASCII-hyphen form is preserved; the space-separated
and em-dash forms both canonicalize to the bare digits `"4212345678"` (the
em dashes are scrubbed to spaces by `clean_string`'s non-printable filter
before the dash replacement in `normalise_api_string` can see them, and all
whitespace is then deleted). -/
theorem canonicalization_of_three_separator_forms :
    normalise_api_string (some "42-123-45678") = some "42-123-45678" ∧
      normalise_api_string (some "42 123 45678") = some "4212345678" ∧
      normalise_api_string (some "42—123—45678") = some "4212345678" :=
  ⟨by decide, by decide, by decide⟩

/-! ### Lemmas about identifier recovery -/

theorem dropWhile_length_le (p : Char → Bool) (l : List Char) :
    (l.dropWhile p).length ≤ l.length := by
  induction l with
  | nil => simp
  | cons x xs ih =>
    by_cases hx : p x = true
    · simp only [List.dropWhile, hx]
      exact Nat.le_succ_of_le ih
    · simp [List.dropWhile, hx]

theorem isSep_eq_false_of_isDigit (c : Char) (h : c.isDigit = true) : isSep c = false := by
  by_contra hne
  have hsep : isSep c = true := by
    cases hs : isSep c
    · exact absurd hs hne
    · rfl
  have hc : c = ' ' ∨ c = '\t' ∨ c = '\n' ∨ c = '\x0d' ∨ c = '\x0b' ∨ c = '\x0c' ∨
      c = '-' ∨ c = '/' ∨ c = '\\' := by
    simpa [isSep, isPySpace, Bool.or_eq_true, decide_eq_true_eq, or_assoc] using hsep
  rcases hc with h1 | h1 | h1 | h1 | h1 | h1 | h1 | h1 | h1 <;>
    (subst h1; exact absurd h (by decide))

/-- `munch` only ever shortens its input, strictly so when it consumed a
digit. -/
theorem munch_rest_length (k : Nat) (cs : List Char) :
    (munch k cs).2.2.length ≤ cs.length ∧
      (0 < (munch k cs).1 → (munch k cs).2.2.length < cs.length) := by
  induction k generalizing cs with
  | zero => simp [munch]
  | succ k ih =>
    cases cs with
    | nil => simp [munch]
    | cons c cs' =>
      by_cases hc : c.isDigit = true
      · have hdrop : (cs'.dropWhile isSep).length ≤ cs'.length := dropWhile_length_le isSep cs'
        have hrec := (ih (cs'.dropWhile isSep)).1
        constructor
        · simp only [munch, hc, if_true]
          exact Nat.le_succ_of_le (le_trans hrec hdrop)
        · intro _
          simp only [munch, hc, if_true]
          exact Nat.lt_succ_of_le (le_trans hrec hdrop)
      · simp [munch, hc]

/-- The tolerant pattern fails on a non-digit head. -/
theorem munch_nondigit (k : Nat) (c : Char) (cs : List Char) (hc : c.isDigit = false) :
    munch (k + 1) (c :: cs) = (0, [], c :: cs) := by
  simp [munch, hc]

/-- On an all-digit prefix longer than the capacity, `munch` consumes exactly
the capacity. -/
theorem munch_digit_run (k : Nat) (run b : List Char)
    (hrun : ∀ c ∈ run, c.isDigit = true) (hk : k < run.length) :
    munch k (run ++ b) = (k, run.take k, run.drop k ++ b) := by
  induction k generalizing run b with
  | zero => simp [munch]
  | succ k ih =>
    cases run with
    | nil => simp at hk
    | cons r run' =>
      have hr : r.isDigit = true := hrun r (by simp)
      have hrun' : ∀ c ∈ run', c.isDigit = true := fun c hc => hrun c (by simp [hc])
      have hk' : k < run'.length := by simpa using Nat.lt_of_succ_lt_succ hk
      have hne : run' ≠ [] := by
        intro h0
        rw [h0] at hk'
        simp at hk'
      have hhead : ∀ d, (run' ++ b).head? = some d → isSep d = false := by
        intro d hd
        cases run' with
        | nil => exact absurd rfl hne
        | cons r2 rest =>
          have hdr : r2 = d := by simpa using hd
          exact hdr ▸ isSep_eq_false_of_isDigit r2 (hrun' r2 (by simp))
      have hdrop : (run' ++ b).dropWhile isSep = run' ++ b := by
        cases hrb : run' ++ b with
        | nil => simp
        | cons x xs =>
          have hx : isSep x = false := hhead x (by simp [hrb])
          simp [List.dropWhile, hx]
      have htake : (run' ++ b).takeWhile isSep = [] := by
        cases hrb : run' ++ b with
        | nil => simp
        | cons x xs =>
          have hx : isSep x = false := hhead x (by simp [hrb])
          simp [List.takeWhile, hx]
      simp only [List.cons_append, munch, hr, if_true, List.append_eq]
      rw [htake, hdrop, ih run' b hrun' hk']
      simp [List.take_succ_cons, List.drop_succ_cons]

/-- The scan result does not depend on the fuel, as long as it covers the
input length. -/
theorem scanTolerantF_fuel (fuel fuel' : Nat) (cs : List Char)
    (h : cs.length ≤ fuel) (h' : cs.length ≤ fuel') :
    scanTolerantF fuel cs = scanTolerantF fuel' cs := by
  induction fuel generalizing fuel' cs with
  | zero =>
    have : cs = [] := List.length_eq_zero.mp (Nat.le_zero.mp h)
    subst this
    cases fuel' <;> simp [scanTolerantF]
  | succ f ihf =>
    cases cs with
    | nil => cases fuel' <;> simp [scanTolerantF]
    | cons c cs' =>
      cases fuel' with
      | zero => simp at h'
      | succ f' =>
        simp only [scanTolerantF]
        by_cases h10 : 10 ≤ (munch 14 (c :: cs')).1
        · rw [if_pos h10, if_pos h10]
          have hlt : (munch 14 (c :: cs')).2.2.length < (c :: cs').length :=
            (munch_rest_length 14 (c :: cs')).2 (lt_of_lt_of_le (by norm_num) h10)
          rw [ihf f' (munch 14 (c :: cs')).2.2 (Nat.le_of_lt_succ (lt_of_lt_of_le hlt h))
            (Nat.le_of_lt_succ (lt_of_lt_of_le hlt h'))]
        · rw [if_neg h10, if_neg h10]
          have hcs : cs'.length ≤ f := Nat.le_of_succ_le_succ h
          have hcs' : cs'.length ≤ f' := Nat.le_of_succ_le_succ h'
          rw [ihf f' cs' hcs hcs']

/-- Every candidate the tolerant scan emits has between 10 and 14 digits
(the explicit range check in the source). -/
theorem mem_scanTolerantF_length (fuel : Nat) (cs : List Char) (c : List Char)
    (h : c ∈ scanTolerantF fuel cs) : 10 ≤ c.length ∧ c.length ≤ 14 := by
  induction fuel generalizing cs with
  | zero => simp [scanTolerantF] at h
  | succ f ih =>
    cases cs with
    | nil => simp [scanTolerantF] at h
    | cons x xs =>
      simp only [scanTolerantF] at h
      by_cases h10 : 10 ≤ (munch 14 (x :: xs)).1
      · rw [if_pos h10] at h
        rcases List.mem_append.mp h with h1 | h1
        · set ds := (munch 14 (x :: xs)).2.1.filter Char.isDigit with hds
          by_cases hg : (decide (10 ≤ ds.length) && decide (ds.length ≤ 14)) = true
          · rw [if_pos hg] at h1
            obtain rfl : c = ds := by simpa using h1
            simpa using hg
          · rw [if_neg hg] at h1
            simp at h1
        · exact ih _ h1
      · rw [if_neg h10] at h
        exact ih _ h

/-- Every contiguous-run candidate has between 10 and 14 digits. -/
theorem mem_contiguousRunsF_length (fuel : Nat) (cs : List Char) (prev : Option Char)
    (c : List Char) (h : c ∈ contiguousRunsF fuel cs prev) :
    10 ≤ c.length ∧ c.length ≤ 14 := by
  induction fuel generalizing cs prev with
  | zero => simp [contiguousRunsF] at h
  | succ f ih =>
    cases cs with
    | nil => simp [contiguousRunsF] at h
    | cons x xs =>
      simp only [contiguousRunsF] at h
      by_cases hx : x.isDigit = true
      · rw [if_pos hx] at h
        rcases List.mem_append.mp h with h1 | h1
        · set keep := _ && _ with hkeep
          by_cases hk : (keep : Bool) = true
          · rw [if_pos hk] at h1
            obtain rfl : c = x :: xs.takeWhile Char.isDigit := by simpa using h1
            rw [hkeep] at hk
            simp only [Bool.and_eq_true, decide_eq_true_eq] at hk
            exact ⟨hk.1.2, hk.2⟩
          · rw [if_neg hk] at h1
            simp at h1
        · exact ih _ _ h1
      · rw [if_neg hx] at h
        exact ih _ _ h

/-- Every candidate of `extract_api_fallback` has between 10 and 14 digits. -/
theorem candidatesOf_length (t : String) :
    ∀ c ∈ candidatesOf t, 10 ≤ c.length ∧ c.length ≤ 14 := by
  intro c hc
  rcases List.mem_append.mp hc with h | h
  · exact mem_scanTolerantF_length _ _ c h
  · exact mem_contiguousRunsF_length _ _ _ c h

theorem find?_cons_pos (p : List Char → Bool) (a : List Char) (l : List (List Char))
    (h : p a = true) : List.find? p (a :: l) = some a := by
  simp [List.find?, h]

theorem find?_cons_neg (p : List Char → Bool) (a : List Char) (l : List (List Char))
    (h : p a = false) : List.find? p (a :: l) = List.find? p l := by
  simp [List.find?, h]

theorem mem_dedupFirstGo (seen l : List (List Char)) (c : List Char)
    (h : c ∈ dedupFirstGo seen l) : c ∈ l := by
  induction l generalizing seen with
  | nil => simpa [dedupFirstGo] using h
  | cons x xs ih =>
    simp only [dedupFirstGo] at h
    by_cases hx : x ∈ seen
    · rw [if_pos hx] at h
      exact List.mem_cons_of_mem _ (ih _ h)
    · rw [if_neg hx] at h
      rcases List.mem_cons.mp h with h1 | h1
      · exact h1 ▸ List.mem_cons_self _ _
      · exact List.mem_cons_of_mem _ (ih _ h1)

/-- Deduplication never changes the first match of a search, provided the
already-seen values do not match. -/
theorem find?_dedupFirstGo (p : List Char → Bool) (seen l : List (List Char))
    (hseen : ∀ y ∈ seen, p y = false) :
    (dedupFirstGo seen l).find? p = l.find? p := by
  induction l generalizing seen with
  | nil => simp [dedupFirstGo]
  | cons x xs ih =>
    simp only [dedupFirstGo]
    by_cases hx : x ∈ seen
    · rw [if_pos hx, ih seen hseen, find?_cons_neg p x xs (hseen x hx)]
    · rw [if_neg hx]
      by_cases hp : p x = true
      · rw [find?_cons_pos p x _ hp, find?_cons_pos p x xs hp]
      · have hp' : p x = false := by
          cases hpx : p x
          · rfl
          · exact absurd hpx hp
        rw [find?_cons_neg p x _ hp', find?_cons_neg p x xs hp']
        refine ih (x :: seen) ?_
        intro y hy
        rcases List.mem_cons.mp hy with h1 | h1
        · exact h1 ▸ hp'
        · exact hseen y h1

theorem mem_insertLenDesc (x : List Char) (l : List (List Char)) (y : List Char)
    (h : y ∈ insertLenDesc x l) : y = x ∨ y ∈ l := by
  induction l with
  | nil => simpa [insertLenDesc] using h
  | cons z zs ih =>
    simp only [insertLenDesc] at h
    by_cases hlt : x.length < z.length
    · rw [if_pos hlt] at h
      rcases List.mem_cons.mp h with h1 | h1
      · exact Or.inr (h1 ▸ List.mem_cons_self _ _)
      · rcases ih h1 with h2 | h2
        · exact Or.inl h2
        · exact Or.inr (List.mem_cons_of_mem _ h2)
    · rw [if_neg hlt] at h
      rcases List.mem_cons.mp h with h1 | h1
      · exact Or.inl h1
      · exact Or.inr h1

theorem mem_sortLenDesc (l : List (List Char)) (y : List Char)
    (h : y ∈ sortLenDesc l) : y ∈ l := by
  induction l with
  | nil => simpa [sortLenDesc] using h
  | cons x xs ih =>
    simp only [sortLenDesc] at h
    rcases mem_insertLenDesc x (sortLenDesc xs) y h with h1 | h1
    · exact h1 ▸ List.mem_cons_self _ _
    · exact List.mem_cons_of_mem _ (ih h1)

/-- When the candidate list holds a 14-digit entry and nothing longer, the
stable sort by descending length starts with the first 14-digit entry. -/
theorem sortLenDesc_eq_cons (l : List (List Char)) (d : List Char)
    (hb : ∀ x ∈ l, x.length ≤ 14)
    (hf : l.find? (fun c => c.length == 14) = some d) :
    ∃ rest, sortLenDesc l = d :: rest := by
  induction l with
  | nil => simp [List.find?] at hf
  | cons x xs ih =>
    by_cases hx : (x.length == 14) = true
    · rw [find?_cons_pos (fun c => c.length == 14) x xs hx] at hf
      obtain rfl : x = d := by simpa using hf
      cases hs : sortLenDesc xs with
      | nil => exact ⟨[], by simp [sortLenDesc, hs, insertLenDesc]⟩
      | cons y ys =>
        have hy : y ∈ xs := mem_sortLenDesc xs y (hs ▸ List.mem_cons_self y ys)
        have hyl : y.length ≤ 14 := hb y (List.mem_cons_of_mem _ hy)
        have hxl : x.length = 14 := by simpa using hx
        have hnlt : ¬ x.length < y.length := by omega
        exact ⟨y :: ys, by simp [sortLenDesc, hs, insertLenDesc, hnlt]⟩
    · have hx' : ((fun c => c.length == 14) x) = false := by
        show (x.length == 14) = false
        cases hpx : (x.length == 14)
        · rfl
        · exact absurd hpx hx
      rw [find?_cons_neg (fun c => c.length == 14) x xs hx'] at hf
      have hb' : ∀ z ∈ xs, z.length ≤ 14 := fun z hz => hb z (List.mem_cons_of_mem _ hz)
      obtain ⟨rest, hrest⟩ := ih hb' hf
      have hdl : d.length = 14 := by simpa using List.find?_some hf
      have hxl : x.length ≤ 14 := hb x (List.mem_cons_self _ _)
      have hxne : ¬ x.length = 14 := by simpa using hx
      have hlt : x.length < d.length := by omega
      exact ⟨insertLenDesc x rest, by simp [sortLenDesc, hrest, insertLenDesc, hlt]⟩

/-- Whenever the candidate list holds a 14-digit entry, the fallback returns
the first one, hyphenated 2-3-5-2-2. -/
theorem extract_api_fallback_of_find14 (t : String) (d : List Char)
    (hfind : (candidatesOf t).find? (fun c => c.length == 14) = some d) :
    extract_api_fallback t = some (String.mk
      (d.take 2 ++ '-' :: (d.drop 2).take 3 ++ '-' :: (d.drop 5).take 5 ++
        '-' :: (d.drop 10).take 2 ++ '-' :: d.drop 12)) := by
  have hmem : d ∈ candidatesOf t := List.mem_of_find?_eq_some hfind
  have hdl : d.length = 14 := by simpa using List.find?_some hfind
  have hd2 : (dedupFirst (candidatesOf t)).find? (fun c => c.length == 14) = some d := by
    unfold dedupFirst
    rw [find?_dedupFirstGo _ [] _ (by intro y hy; simp at hy)]
    exact hfind
  have hb2 : ∀ x ∈ dedupFirst (candidatesOf t), x.length ≤ 14 := by
    intro x hx
    exact (candidatesOf_length t x (mem_dedupFirstGo [] _ x hx)).2
  obtain ⟨rest, hsort⟩ := sortLenDesc_eq_cons _ _ hb2 hd2
  have hne : (candidatesOf t).isEmpty = false := by
    cases hc : candidatesOf t
    · rw [hc] at hmem
      simp at hmem
    · rfl
  have hfmt : format_api d = some (String.mk
      (d.take 2 ++ '-' :: (d.drop 2).take 3 ++ '-' :: (d.drop 5).take 5 ++
        '-' :: (d.drop 10).take 2 ++ '-' :: d.drop 12)) := by
    unfold format_api
    rw [if_neg (by omega), if_neg (by omega), if_pos hdl]
  unfold extract_api_fallback
  simp only []
  rw [hne]
  simp only [Bool.false_eq_true, if_false]
  rw [hsort]
  simp only [firstFormatted]
  rw [hfmt]

/-- C8: identifier recovery formats the bare 12-digit run `"421234567890"`
in 2-3-5-2 groups; and whenever the candidate list holds both a 10-digit and
a 14-digit candidate, dedup keeps first-seen order, the sort prefers the
longer digit count, and the first 14-digit candidate is returned formatted
2-3-5-2-2. -/
theorem fallback_formats_and_prefers_longest :
    extract_api_fallback "421234567890" = some "42-123-45678-90" ∧
      ∀ t : String,
        ((candidatesOf t).any fun c => c.length == 10) = true →
        ((candidatesOf t).any fun c => c.length == 14) = true →
        ∃ d, (candidatesOf t).find? (fun c => c.length == 14) = some d ∧
          extract_api_fallback t = some (String.mk
            (d.take 2 ++ '-' :: (d.drop 2).take 3 ++ '-' :: (d.drop 5).take 5 ++
              '-' :: (d.drop 10).take 2 ++ '-' :: d.drop 12)) := by
  refine ⟨by decide, ?_⟩
  intro t h10 h14
  cases hf : (candidatesOf t).find? (fun c => c.length == 14) with
  | none =>
    rcases List.any_eq_true.mp h14 with ⟨c, hc, hlen⟩
    exact absurd hlen (by simpa using List.find?_eq_none.mp hf c hc)
  | some d => exact ⟨d, rfl, extract_api_fallback_of_find14 t d hf⟩

/-- Witness for C8 at a text holding a 10-digit and a 14-digit candidate. -/
theorem fallback_formats_and_prefers_longest_witness :
    ∃ d, (candidatesOf "1234567890 12345678901234").find?
        (fun c => c.length == 14) = some d ∧
      extract_api_fallback "1234567890 12345678901234" = some (String.mk
        (d.take 2 ++ '-' :: (d.drop 2).take 3 ++ '-' :: (d.drop 5).take 5 ++
          '-' :: (d.drop 10).take 2 ++ '-' :: d.drop 12)) :=
  fallback_formats_and_prefers_longest.2 "1234567890 12345678901234" (by decide) (by decide)

theorem dashFix_eq_self_of_isDigit (c : Char) (h : c.isDigit = true) : dashFix c = c := by
  unfold dashFix
  rw [if_neg]
  intro hc
  simp only [Bool.or_eq_true, decide_eq_true_eq] at hc
  rcases hc with h1 | h1 <;> (subst h1; exact absurd h (by decide))

theorem dashFix_isDigit_false (c : Char) (h : c.isDigit = false) :
    (dashFix c).isDigit = false := by
  unfold dashFix
  by_cases hc : (c = '–' || c = '—') = true
  · rw [if_pos hc]
    decide
  · rw [if_neg hc]
    exact h

theorem map_dashFix_of_digits (run : List Char) (h : ∀ c ∈ run, c.isDigit = true) :
    run.map dashFix = run := by
  induction run with
  | nil => rfl
  | cons r rs ih =>
    rw [List.map_cons, dashFix_eq_self_of_isDigit r (h r (by simp)),
      ih fun c hc => h c (by simp [hc])]

/-- The tolerant scan skips a digit-free prefix. -/
theorem scanTolerantF_skip (pre x : List Char) (hpre : ∀ c ∈ pre, c.isDigit = false) :
    ∀ fuel, (pre ++ x).length ≤ fuel → scanTolerantF fuel (pre ++ x) = scanTolerantF x.length x := by
  induction pre with
  | nil =>
    intro fuel hf
    exact scanTolerantF_fuel fuel x.length x (by simpa using hf) le_rfl
  | cons p ps ih =>
    intro fuel hf
    cases fuel with
    | zero => simp at hf
    | succ f =>
      have hp : p.isDigit = false := hpre p (by simp)
      have hm14 : munch 14 (p :: (ps ++ x)) = (0, [], p :: (ps ++ x)) :=
        munch_nondigit 13 p (ps ++ x) hp
      simp only [List.cons_append, scanTolerantF, List.append_eq]
      simp only [hm14]
      rw [if_neg (by simp)]
      exact ih (fun c hc => hpre c (by simp [hc])) f (by simpa using Nat.le_of_succ_le_succ hf)

/-- At the head of a digit run longer than 14, the tolerant scan emits the
first 14 digits as a candidate and resumes after them. -/
theorem scanTolerantF_digit_run (f : Nat) (run b : List Char)
    (hrun : ∀ c ∈ run, c.isDigit = true) (hlen : 14 < run.length) :
    scanTolerantF (f + 1) (run ++ b) = run.take 14 :: scanTolerantF f (run.drop 14 ++ b) := by
  cases run with
  | nil => simp at hlen
  | cons r run' =>
    have hm : munch 14 (r :: (run' ++ b)) = (14, (r :: run').take 14, (r :: run').drop 14 ++ b) := by
      have := munch_digit_run 14 (r :: run') b hrun (by simpa using hlen)
      rwa [List.cons_append] at this
    simp only [List.cons_append, scanTolerantF, List.append_eq]
    simp only [hm]
    rw [if_pos (by norm_num)]
    have hds : ((r :: run').take 14).filter Char.isDigit = (r :: run').take 14 :=
      List.filter_eq_self.mpr fun c hc => hrun c (List.mem_of_mem_take hc)
    have hl14 : ((r :: run').take 14).length = 14 := by
      rw [List.length_take]
      simp only [List.length_cons] at hlen ⊢
      omega
    rw [hds]
    rw [if_pos (by rw [hl14]; decide)]
    rfl

/-- C10 (implicit): on a text whose only digit content is one contiguous run
of more than 14 digits, identifier recovery does not return `None`: the
greedy separator-tolerant scan takes the first 14 digits of the run as a
candidate and returns them formatted 2-3-5-2-2. -/
theorem long_digit_run_recovers_first_14 (pre run post : List Char)
    (hpre : ∀ c ∈ pre, c.isDigit = false) (hpost : ∀ c ∈ post, c.isDigit = false)
    (hrun : ∀ c ∈ run, c.isDigit = true) (hlen : 14 < run.length) :
    extract_api_fallback (String.mk (pre ++ run ++ post)) = some (String.mk
      ((run.take 14).take 2 ++ '-' :: ((run.take 14).drop 2).take 3 ++
        '-' :: ((run.take 14).drop 5).take 5 ++ '-' :: ((run.take 14).drop 10).take 2 ++
        '-' :: (run.take 14).drop 12)) := by
  apply extract_api_fallback_of_find14
  have hnorm : (String.mk (pre ++ run ++ post)).data.map dashFix
      = pre.map dashFix ++ (run ++ post.map dashFix) := by
    show (pre ++ run ++ post).map dashFix = _
    rw [List.map_append, List.map_append, map_dashFix_of_digits run hrun, List.append_assoc]
  have hpre' : ∀ c ∈ pre.map dashFix, c.isDigit = false := by
    intro c hc
    rcases List.mem_map.mp hc with ⟨y, hy, rfl⟩
    exact dashFix_isDigit_false y (hpre y hy)
  obtain ⟨f, hfev⟩ : ∃ f, (run ++ post.map dashFix).length = f + 1 := by
    refine ⟨(run ++ post.map dashFix).length - 1, ?_⟩
    have h0 : 0 < run.length := by omega
    simp only [List.length_append]
    omega
  have hscan : scanTolerantF ((pre.map dashFix ++ (run ++ post.map dashFix)).length)
      (pre.map dashFix ++ (run ++ post.map dashFix))
      = run.take 14 :: scanTolerantF f (run.drop 14 ++ post.map dashFix) := by
    rw [scanTolerantF_skip (pre.map dashFix) _ hpre' _ le_rfl, hfev,
      scanTolerantF_digit_run f run (post.map dashFix) hrun hlen]
  have hl14 : ((run.take 14).length == 14) = true := by
    have : (run.take 14).length = 14 := by
      rw [List.length_take]
      omega
    simp [this]
  unfold candidatesOf
  simp only []
  rw [hnorm, hscan, List.cons_append,
    find?_cons_pos (fun c => c.length == 14) (run.take 14) _ hl14]

/-- Witness for C10 at the bare 16-digit run. -/
theorem long_digit_run_recovers_first_14_witness :
    extract_api_fallback (String.mk ([] ++ "1234567890123456".data ++ [])) = some (String.mk
      (("1234567890123456".data.take 14).take 2 ++
        '-' :: (("1234567890123456".data.take 14).drop 2).take 3 ++
        '-' :: (("1234567890123456".data.take 14).drop 5).take 5 ++
        '-' :: (("1234567890123456".data.take 14).drop 10).take 2 ++
        '-' :: ("1234567890123456".data.take 14).drop 12)) :=
  long_digit_run_recovers_first_14 [] "1234567890123456".data []
    (by decide) (by decide) (by decide) (by decide)

/-- C9: text extraction is total and signals failure by value.  When the
embedded-text pass yields only blank text and the OCR fallback fails — the
rasterization toolchain is unavailable or the document corrupt (conversion
raises), or recognition fails on the pages — the function returns `""`, and
the caller skips the document: no parse, no store write. -/
theorem extraction_failure_yields_empty_and_no_writes (env : PdfEnv)
    (parseWell parseStim : String → Dict) (store : Store)
    (hagg : pyBlank (embeddedAggregate env) = true)
    (hfail : env.convert = .error () ∨
      ∃ images, env.convert = .ok images ∧ images ≠ [] ∧ ∀ i ∈ images, i = .error ()) :
    extract_text_from_pdf env = "" ∧
      process_pdf parseWell parseStim store env = (store, [], []) := by
  have hext : extract_text_from_pdf env = "" := by
    unfold extract_text_from_pdf
    simp only []
    rw [if_pos hagg]
    rcases hfail with h | ⟨imgs, hok, hne, hall⟩
    · rw [h]
    · rw [hok]
      cases imgs with
      | nil => exact absurd rfl hne
      | cons i is =>
        have hi : i = .error () := hall i (by simp)
        rw [hi]
        rfl
  refine ⟨hext, ?_⟩
  unfold process_pdf
  simp only []
  rw [hext, if_pos (by decide)]

/-- Witness for C9: a corrupt document — no text layer, conversion raises. -/
theorem extraction_failure_yields_empty_and_no_writes_witness :
    extract_text_from_pdf ⟨none, .error ()⟩ = "" ∧
      process_pdf (fun _ => []) (fun _ => []) emptyStore ⟨none, .error ()⟩
        = (emptyStore, [], []) :=
  extraction_failure_yields_empty_and_no_writes ⟨none, .error ()⟩ _ _ emptyStore
    (by decide) (Or.inl rfl)

end PdfParser
